import Mathlib

/-!
Verification of the polaris search index (`src/app/index/search.rs`).

Shallow embedding of the in-memory search index and query evaluator.

Modelling conventions:
* Rust strings are `List Char` (UTF-8 `str::contains` on valid strings is
  substring containment on the character sequence).
* `lasso2::Spur` (interned string symbol) is `Nat`; `SongKey` wraps the
  symbol of a song's virtual path, so it is also `Nat`.
* `RodeoReader::resolve` is a function `Nat → List Char` passed in, exactly
  as the reader is passed by reference in the source.
* `storage::sanitize` is defined outside the excerpt; every operation takes
  it as an explicit parameter `san : List Char → List Char`, mirroring the
  free function the source calls.  Theorems quantify over `san`.
* Rust `HashMap` fields are total functions with an explicit `Option`
  (absent key) or a default (`∅` / `[]`) where the source uses
  `unwrap_or_default`-style access; `IntMap<SongKey, Spur>` is an
  association list with unique keys, so that posting sizes (`len()`) and
  entry iteration are available.
* Panics (`todo!()`) are modelled by `Option`: `none` is a panic.
-/

namespace Polaris

/-- Bigrams: the length-2 windows of a character list
(`characters.windows(NGRAM_SIZE)` with `NGRAM_SIZE = 2`). -/
def bigrams : List Char → List (Char × Char)
  | a :: b :: rest => (a, b) :: bigrams (b :: rest)
  | _ => []

/-- Association-list lookup, the model of `IntMap::get` /
`IntMap::contains_key`. -/
def alLookup (k : Nat) : List (Nat × Nat) → Option Nat
  | [] => none
  | (k', v) :: rest => if k' = k then some v else alLookup k rest

/-- Association-list insert with overwrite, the model of
`IntMap::insert` (a later insertion for the same key overwrites). -/
def alInsert (k v : Nat) : List (Nat × Nat) → List (Nat × Nat)
  | [] => [(k, v)]
  | (k', v') :: rest =>
      if k' = k then (k, v) :: rest else (k', v') :: alInsert k v rest

/-- `TextField` (from the query module; shape fixed by its use in
`search.rs` and §4.5 of the spec): the nine text fields. -/
inductive TextField
  | album | albumArtist | artist | composer | genre | label | lyricist
  | path | title
  deriving DecidableEq, Repr

/-- The nine text fields, used to iterate `HashMap::values()`. -/
def TextField.all : List TextField :=
  [.album, .albumArtist, .artist, .composer, .genre, .label, .lyricist,
   .path, .title]

/-- `NumberField` (from the query module): the three numeric fields. -/
inductive NumberField
  | year | trackNumber | discNumber
  deriving DecidableEq, Repr

/-- The three number fields, used to iterate `HashMap::values()`. -/
def NumberField.all : List NumberField := [.year, .trackNumber, .discNumber]

/-- `TextOp`: `=` (exact) and `%` (like). -/
inductive TextOp
  | eq | like
  deriving DecidableEq, Repr

/-- `NumberOp`: `=`, `<`, `<=`, `>`, `>=`. -/
inductive NumberOp
  | eq | less | lessEq | greater | greaterEq
  deriving DecidableEq, Repr

/-- `BoolOp`: `&&` and `||`. -/
inductive BoolOp
  | and | or
  deriving DecidableEq, Repr

/-- `Literal`: a bare query literal, text or number. -/
inductive Literal
  | text (s : List Char)
  | number (n : Int)
  deriving DecidableEq, Repr

/-- `Expr`: the parsed query expression tree. -/
inductive Expr
  | fuzzy (l : Literal)
  | textCmp (field : TextField) (op : TextOp) (s : List Char)
  | numberCmp (field : NumberField) (op : NumberOp) (n : Int)
  | combined (e : Expr) (op : BoolOp) (f : Expr)
  deriving DecidableEq, Repr

/-- `TextFieldIndex`: `exact` maps a value symbol to its song set
(absent key = `∅`); `ngrams` maps a bigram to the posting map from song
key to value symbol (absent key = empty map `[]`). -/
structure TextFieldIndex where
  exact : Nat → Finset Nat
  ngrams : Char × Char → List (Nat × Nat)

/-- `TextFieldIndex::default()`: both maps empty. -/
def TextFieldIndex.default : TextFieldIndex :=
  { exact := fun _ => ∅, ngrams := fun _ => [] }

/-- `TextFieldIndex::insert(raw_value, value, key)`: register
`key ↦ value` in the bucket of every bigram of `sanitize(raw_value)`,
then add `key` to `exact[value]`. -/
def TextFieldIndex.insert (idx : TextFieldIndex)
    (san : List Char → List Char) (raw_value : List Char)
    (value : Nat) (key : Nat) : TextFieldIndex :=
  let characters := san raw_value
  let ngrams' := (bigrams characters).foldl
    (fun m b => fun b' => if b' = b then alInsert key value (m b) else m b')
    idx.ngrams
  { exact := fun s => if s = value then Insert.insert key (idx.exact s)
                      else idx.exact s,
    ngrams := ngrams' }

/-- `TextFieldIndex::find_like(strings, value)`: bigram broad phase over
the sanitized query followed by the substring narrow phase.  The
candidate postings are sorted by size (stable, as Rust `sort_by_key`);
the smallest posting drives the intersection. -/
def TextFieldIndex.find_like (idx : TextFieldIndex)
    (san : List Char → List Char) (strings : Nat → List Char)
    (value : List Char) : Finset Nat :=
  let sanitized := san value
  let characters := sanitized
  let candidates := (bigrams characters).map (fun s => idx.ngrams s)
  if candidates.isEmpty then ∅
  else
    match List.insertionSort (fun h h' => h.length ≤ h'.length) candidates
      with
    | [] => ∅
    | c0 :: rest =>
        let broad := c0.filter
          (fun (p : Nat × Nat) => rest.all (fun c => (alLookup p.1 c).isSome))
        let narrow := broad.filter
          (fun (p : Nat × Nat) => decide (sanitized <:+: san (strings p.2)))
        (narrow.map Prod.fst).toFinset

/-- `TextFieldIndex::find_exact(canon, value)`: look the sanitized query
up in the canonical map, then return that symbol's exact bucket. -/
def TextFieldIndex.find_exact (idx : TextFieldIndex)
    (san : List Char → List Char) (canon : List Char → Option Nat)
    (value : List Char) : Finset Nat :=
  match canon (san value) with
  | none => ∅
  | some s => idx.exact s

/-- `NumberFieldIndex`: map from an `i32` value to the set of song keys. -/
structure NumberFieldIndex where
  values : Int → Option (Finset Nat)

/-- `NumberFieldIndex::default()`. -/
def NumberFieldIndex.default : NumberFieldIndex := { values := fun _ => none }

/-- `NumberFieldIndex::insert`: the body is empty in this revision — the
index is returned unchanged. -/
def NumberFieldIndex.insert (idx : NumberFieldIndex)
    (raw_value : List Char) (value : Nat) (key : Nat) : NumberFieldIndex :=
  idx

/-- `NumberFieldIndex::find_equal`: `todo!()` — unconditionally panics. -/
def NumberFieldIndex.find_equal (idx : NumberFieldIndex) (value : Int) :
    Option (Finset Nat) :=
  none

/-- Modelled from the spec: §4.4 says "`find_equal(n)` returns `values[n]`
or empty".  This is the specification-side behaviour of `find_equal`,
kept separate from the source's `todo!()` body for comparison. -/
def NumberFieldIndex.find_equal_specModel (idx : NumberFieldIndex)
    (value : Int) : Finset Nat :=
  (idx.values value).getD ∅

/-- `Search`: the two collections of field indexes. -/
structure Search where
  text_fields : TextField → Option TextFieldIndex
  number_fields : NumberField → Option NumberFieldIndex

/-- `Search::default()`: both maps empty. -/
def Search.default : Search :=
  { text_fields := fun _ => none, number_fields := fun _ => none }

/-- The `Literal::Text` loop body of `Search::eval_fuzzy`: union of
`find_like` over all present text field indexes. -/
def Search.fuzzyTextUnion (s : Search) (san : List Char → List Char)
    (strings : Nat → List Char) (q : List Char) : Finset Nat :=
  TextField.all.foldl
    (fun songs f => match s.text_fields f with
      | none => songs
      | some idx => songs ∪ idx.find_like san strings q) ∅

/-- The `Literal::Number` loop of `Search::eval_fuzzy`: extend over
`find_equal` for all present number field indexes (panics — `none` — as
soon as one is present, since `find_equal` is `todo!()`). -/
def Search.fuzzyNumberUnion (s : Search) (n : Int) : Option (Finset Nat) :=
  NumberField.all.foldl
    (fun songs f => match s.number_fields f with
      | none => songs
      | some idx => do
          let acc ← songs
          let b ← idx.find_equal n
          pure (acc ∪ b)) (some ∅)

/-- Decimal rendering of an `i32`, the model of `n.to_string()`. -/
def intToChars (n : Int) : List Char := (toString n).toList

/-- `Search::eval_fuzzy`: a text literal is matched with `find_like`
against every text field; a number literal additionally consults every
number field, then recurses into the text branch on its decimal form
(the recursive call is inlined: it lands in the text branch at once). -/
def Search.eval_fuzzy (s : Search) (san : List Char → List Char)
    (strings : Nat → List Char) : Literal → Option (Finset Nat)
  | .text q => some (s.fuzzyTextUnion san strings q)
  | .number n => do
      let songs ← s.fuzzyNumberUnion n
      pure (songs ∪ s.fuzzyTextUnion san strings (intToChars n))

/-- `Search::eval_text_operator`: absent field index yields `∅`;
otherwise dispatch on the operator. -/
def Search.eval_text_operator (s : Search) (san : List Char → List Char)
    (strings : Nat → List Char) (canon : List Char → Option Nat)
    (field : TextField) (operator : TextOp) (value : List Char) :
    Finset Nat :=
  match s.text_fields field with
  | none => ∅
  | some field_index =>
      match operator with
      | .eq => field_index.find_exact san canon value
      | .like => field_index.find_like san strings value

/-- `Search::eval_number_operator`: `todo!()` — unconditionally panics. -/
def Search.eval_number_operator (s : Search) (field : NumberField)
    (operator : NumberOp) (value : Int) : Option (Finset Nat) :=
  none

/-- `Search::eval` (with `Search::combine` inlined in the `Combined`
branch): evaluate both operands, then intersect for `And` and union for
`Or`. -/
def Search.eval (s : Search) (san : List Char → List Char)
    (strings : Nat → List Char) (canon : List Char → Option Nat) :
    Expr → Option (Finset Nat)
  | .fuzzy l => s.eval_fuzzy san strings l
  | .textCmp field op v =>
      some (s.eval_text_operator san strings canon field op v)
  | .numberCmp field op n => s.eval_number_operator field op n
  | .combined e op f => do
      let a ← s.eval san strings canon e
      let b ← s.eval san strings canon f
      pure (match op with | .and => a ∩ b | .or => a ∪ b)

/-- `scanner::Song`, restricted to the fields `Builder::add_song` reads.
The virtual path is kept in its lossy string form (`to_string_lossy`). -/
structure ScannerSong where
  virtual_path : List Char
  title : Option (List Char)
  album : Option (List Char)
  artists : List (List Char)
  album_artists : List (List Char)
  composers : List (List Char)
  genres : List (List Char)
  labels : List (List Char)
  lyricists : List (List Char)

/-- `storage::Song`, restricted to the fields `Builder::add_song` reads:
every text attribute interned as a symbol. -/
structure StorageSong where
  virtual_path : Nat
  title : Option Nat
  album : Option Nat
  artists : List Nat
  album_artists : List Nat
  composers : List Nat
  genres : List Nat
  labels : List Nat
  lyricists : List Nat

/-- `Builder`: the under-construction pair of field-index maps. -/
structure Builder where
  text_fields : TextField → Option TextFieldIndex
  number_fields : NumberField → Option NumberFieldIndex

/-- `Builder::default()`. -/
def Builder.default : Builder :=
  { text_fields := fun _ => none, number_fields := fun _ => none }

/-- `self.text_fields.entry(field).or_default().insert(raw, spur, key)`. -/
def Builder.insertText (b : Builder) (san : List Char → List Char)
    (field : TextField) (raw : List Char) (spur key : Nat) : Builder :=
  { b with
    text_fields := fun f =>
      if f = field then
        some (((b.text_fields field).getD TextFieldIndex.default).insert
          san raw spur key)
      else b.text_fields f }

/-- `Builder::add_song`: feed every present text attribute of the song
into its field index; the virtual path is always inserted into the
`Path` field. -/
def Builder.add_song (b : Builder) (san : List Char → List Char)
    (scanner_song : ScannerSong) (storage_song : StorageSong) : Builder :=
  let song_key := storage_song.virtual_path
  let b := match scanner_song.album, storage_song.album with
    | some str, some spur => b.insertText san .album str spur song_key
    | _, _ => b
  let b := (scanner_song.album_artists.zip storage_song.album_artists).foldl
    (fun b p => b.insertText san .albumArtist p.1 p.2 song_key) b
  let b := (scanner_song.artists.zip storage_song.artists).foldl
    (fun b p => b.insertText san .artist p.1 p.2 song_key) b
  let b := (scanner_song.composers.zip storage_song.composers).foldl
    (fun b p => b.insertText san .composer p.1 p.2 song_key) b
  let b := (scanner_song.genres.zip storage_song.genres).foldl
    (fun b p => b.insertText san .genre p.1 p.2 song_key) b
  let b := (scanner_song.labels.zip storage_song.labels).foldl
    (fun b p => b.insertText san .label p.1 p.2 song_key) b
  let b := (scanner_song.lyricists.zip storage_song.lyricists).foldl
    (fun b p => b.insertText san .lyricist p.1 p.2 song_key) b
  let b := b.insertText san .path scanner_song.virtual_path
    storage_song.virtual_path song_key
  let b := match scanner_song.title, storage_song.title with
    | some str, some spur => b.insertText san .title str spur song_key
    | _, _ => b
  b

/-- `Builder::build`. -/
def Builder.build (b : Builder) : Search :=
  { text_fields := b.text_fields, number_fields := b.number_fields }

/-! ## Insert sequences -/

/-- One recorded call `insert(raw, spur, key)` on a `TextFieldIndex`. -/
structure Entry where
  raw : List Char
  spur : Nat
  key : Nat
  deriving DecidableEq, Repr

/-- The index obtained by replaying a sequence of `insert` calls on
`TextFieldIndex::default()`. -/
def buildIndex (san : List Char → List Char) (seq : List Entry) :
    TextFieldIndex :=
  seq.foldl (fun idx e => idx.insert san e.raw e.spur e.key)
    TextFieldIndex.default

/-- The symbol of the last entry of `seq` whose key is `k` and whose
sanitized raw value contains the bigram `b` (`none` if there is none). -/
def lastMatch (san : List Char → List Char) (k : Nat) (b : Char × Char) :
    List Entry → Option Nat
  | [] => none
  | e :: rest =>
      match lastMatch san k b rest with
      | some v => some v
      | none =>
          if k = e.key ∧ b ∈ bigrams (san e.raw) then some e.spur else none

/-! ## Concrete instances for witnesses and counterexamples -/

/-- A concrete sanitize instance: the identity function, which agrees
with any lowercasing / diacritic-stripping / whitespace-normalizing
sanitize on the already-lowercase ASCII strings used below. -/
def sanId : List Char → List Char := fun l => l

/-- Number index holding `values[1] = {3}`. -/
def numIdxC1 : NumberFieldIndex :=
  { values := fun n => if n = 1 then some {3} else none }

/-- Search index with no text fields and one number field. -/
def searchC1 : Search :=
  { text_fields := fun _ => none,
    number_fields := fun f => if f = .year then some numIdxC1 else none }

/-- Modelled from the spec: the result C1 claims for `Fuzzy(Text s)` when
`s` parses as the integer `n` — the text-field union of `find_like`,
additionally unioned with `find_equal(n)` (in its spec-described
behaviour, `values[n]` or empty) across all number fields. -/
def Search.fuzzyTextClaimC1 (s : Search) (san : List Char → List Char)
    (strings : Nat → List Char) (q : List Char) (n : Int) : Finset Nat :=
  s.fuzzyTextUnion san strings q ∪
    NumberField.all.foldl (fun acc f => match s.number_fields f with
      | none => acc
      | some idx => acc ∪ idx.find_equal_specModel n) ∅

/-- Number index holding `values[5] = {7}`. -/
def numIdxC2 : NumberFieldIndex :=
  { values := fun n => if n = 5 then some {7} else none }

/-- Search index with no text fields and one number field for C2. -/
def searchC2 : Search :=
  { text_fields := fun _ => none,
    number_fields := fun f => if f = .year then some numIdxC2 else none }

/-- Index where value `"a"` (symbol 1) was inserted for song 7. -/
def idxC3 : TextFieldIndex :=
  TextFieldIndex.default.insert sanId ['a'] 1 7

/-- Insert sequence: value `"ab"` (symbol 1) for song 7. -/
def seqC3w : List Entry := [⟨['a', 'b'], 1, 7⟩]

/-- Insert sequence: value `"lorry bovine vehicle"` (symbol 5) for
song 9 — each bigram of `"love"` occurs, but not the substring. -/
def seqC4 : List Entry :=
  [⟨['l', 'o', 'r', 'r', 'y', ' ', 'b', 'o', 'v', 'i', 'n', 'e', ' ',
     'v', 'e', 'h', 'i', 'c', 'l', 'e'], 5, 9⟩]

/-- Reader for `seqC4`: symbol 5 resolves to the indexed value. -/
def stringsC4 : Nat → List Char := fun _ =>
  ['l', 'o', 'r', 'r', 'y', ' ', 'b', 'o', 'v', 'i', 'n', 'e', ' ',
   'v', 'e', 'h', 'i', 'c', 'l', 'e']

/-- Index with values `"ab"` (symbol 1) then `"abc"` (symbol 2) both
inserted for song 7: the shared bigram bucket is overwritten. -/
def idxC5 : TextFieldIndex :=
  (TextFieldIndex.default.insert sanId ['a', 'b'] 1 7).insert sanId
    ['a', 'b', 'c'] 2 7

/-- A small index used by the C7 witness. -/
def idxW7 : TextFieldIndex :=
  TextFieldIndex.default.insert sanId ['a', 'b'] 1 7



/-! ## Association-list lemmas -/

theorem alLookup_alInsert_self (k v : Nat) (l : List (Nat × Nat)) :
    alLookup k (alInsert k v l) = some v := by
  induction l with
  | nil => simp [alInsert, alLookup]
  | cons p rest ih =>
      obtain ⟨k', v'⟩ := p
      by_cases h : k' = k
      · subst h
        simp [alInsert, alLookup]
      · simp [alInsert, alLookup, h, ih]

theorem alLookup_alInsert_ne (k k' v : Nat) (l : List (Nat × Nat))
    (h : k' ≠ k) : alLookup k (alInsert k' v l) = alLookup k l := by
  induction l with
  | nil => simp [alInsert, alLookup, h]
  | cons p rest ih =>
      obtain ⟨k'', v''⟩ := p
      by_cases h2 : k'' = k'
      · subst h2
        simp [alInsert, alLookup, h, ih]
      · by_cases h3 : k'' = k
        · subst h3
          simp [alInsert, alLookup, h2]
        · simp [alInsert, alLookup, h2, h3, ih]

theorem alLookup_eq_some_mem {k v : Nat} :
    ∀ {l : List (Nat × Nat)}, alLookup k l = some v → (k, v) ∈ l := by
  intro l
  induction l with
  | nil => intro h; simp [alLookup] at h
  | cons p rest ih =>
      obtain ⟨k', v'⟩ := p
      intro h
      by_cases h2 : k' = k
      · subst h2
        simp [alLookup] at h
        simp [h]
      · simp [alLookup, h2] at h
        exact List.mem_cons_of_mem _ (ih h)

theorem mem_alLookup_of_nodup {k v : Nat} :
    ∀ {l : List (Nat × Nat)}, (l.map Prod.fst).Nodup → (k, v) ∈ l →
      alLookup k l = some v := by
  intro l
  induction l with
  | nil => intro _ h; simp at h
  | cons p rest ih =>
      obtain ⟨k', v'⟩ := p
      intro hnd hmem
      have hnd' := hnd
      rw [List.map_cons, List.nodup_cons] at hnd'
      rcases List.mem_cons.mp hmem with heq | hmem'
      · rw [Prod.mk.injEq] at heq
        rw [heq.1, heq.2] at *
        simp [alLookup]
      · by_cases h2 : k' = k
        · exfalso
          apply hnd'.1
          rw [h2]
          exact List.mem_map.mpr ⟨(k, v), hmem', rfl⟩
        · simp [alLookup, h2]
          exact ih hnd'.2 hmem'

theorem mem_keys_alInsert {x k v : Nat} :
    ∀ {l : List (Nat × Nat)},
      x ∈ (alInsert k v l).map Prod.fst ↔ x = k ∨ x ∈ l.map Prod.fst := by
  intro l
  induction l with
  | nil => simp [alInsert]
  | cons p rest ih =>
      obtain ⟨k', v'⟩ := p
      by_cases h : k' = k
      · subst h
        simp [alInsert]
      · simp [alInsert, h, ih]
        tauto

theorem alInsert_keys_nodup (k v : Nat) :
    ∀ {l : List (Nat × Nat)}, (l.map Prod.fst).Nodup →
      ((alInsert k v l).map Prod.fst).Nodup := by
  intro l
  induction l with
  | nil => intro _; simp [alInsert]
  | cons p rest ih =>
      obtain ⟨k', v'⟩ := p
      intro hnd
      rw [List.map_cons, List.nodup_cons] at hnd
      by_cases h : k' = k
      · subst h
        have he : alInsert k' v ((k', v') :: rest) = (k', v) :: rest := by
          simp [alInsert]
        rw [he, List.map_cons, List.nodup_cons]
        exact ⟨hnd.1, hnd.2⟩
      · rw [alInsert]
        simp only [if_neg h, List.map_cons, List.nodup_cons]
        constructor
        · intro hmem
          rcases mem_keys_alInsert.mp hmem with heq | hmem'
          · exact h heq
          · exact hnd.1 hmem'
        · exact ih hnd.2

/-! ## Bigram lemmas -/

theorem bigrams_eq_nil_of_length_lt_two :
    ∀ {l : List Char}, l.length < 2 → bigrams l = []
  | [], _ => rfl
  | [_], _ => rfl
  | a :: b :: rest, h => by exfalso; simp at h; omega

theorem bigrams_ne_nil_of_two_le :
    ∀ {l : List Char}, 2 ≤ l.length → bigrams l ≠ []
  | [], h => by simp at h
  | [_], h => by simp at h
  | a :: b :: rest, _ => by simp [bigrams]


/-! ## `TextFieldIndex.insert` characterization -/

/-- Effect of the bigram-loop of `insert` on a single posting lookup. -/
theorem ngramsUpdate_lookup (key value k : Nat) (b : Char × Char) :
    ∀ (bs : List (Char × Char)) (m : Char × Char → List (Nat × Nat)),
      alLookup k
        ((bs.foldl
          (fun m b => fun b' => if b' = b then alInsert key value (m b)
            else m b') m) b)
        = if k = key ∧ b ∈ bs then some value else alLookup k (m b) := by
  intro bs
  induction bs with
  | nil => intro m; simp
  | cons b0 bs ih =>
      intro m
      rw [List.foldl_cons, ih]
      by_cases hk : k = key
      · subst hk
        by_cases hb : b ∈ bs
        · simp [hb]
        · by_cases hb0 : b = b0
          · subst hb0
            simp [hb, alLookup_alInsert_self]
          · simp [hb, hb0]
      · simp only [hk, false_and, if_false]
        by_cases hb0 : b = b0
        · subst hb0
          simp [alLookup_alInsert_ne _ _ _ _ (fun h => hk h.symm)]
        · simp [hb0]

/-- Effect of `insert` on a posting lookup: within one bigram bucket a
later insertion for the same song key overwrites the value symbol. -/
theorem insert_ngrams_lookup (idx : TextFieldIndex)
    (san : List Char → List Char) (raw : List Char) (value key k : Nat)
    (b : Char × Char) :
    alLookup k ((idx.insert san raw value key).ngrams b)
      = if k = key ∧ b ∈ bigrams (san raw) then some value
        else alLookup k (idx.ngrams b) := by
  have := ngramsUpdate_lookup key value k b (bigrams (san raw)) idx.ngrams
  exact this

/-- Effect of `insert` on the exact map. -/
theorem insert_exact (idx : TextFieldIndex) (san : List Char → List Char)
    (raw : List Char) (value key k s : Nat) :
    (k ∈ (idx.insert san raw value key).exact s ↔
      (s = value ∧ k = key) ∨ k ∈ idx.exact s) := by
  show k ∈ (if s = value then Insert.insert key (idx.exact s)
    else idx.exact s) ↔ _
  by_cases h : s = value
  · simp [h, Finset.mem_insert]
  · simp [h]

/-- The bigram loop of `insert` preserves key-uniqueness of every
posting map. -/
theorem ngramsUpdate_nodup (key value : Nat) :
    ∀ (bs : List (Char × Char)) (m : Char × Char → List (Nat × Nat)),
      (∀ b, ((m b).map Prod.fst).Nodup) →
      ∀ b, (((bs.foldl
        (fun m b => fun b' => if b' = b then alInsert key value (m b)
          else m b') m) b).map Prod.fst).Nodup := by
  intro bs
  induction bs with
  | nil => intro m h b; exact h b
  | cons b0 bs ih =>
      intro m h b
      rw [List.foldl_cons]
      apply ih
      intro b'
      by_cases hb : b' = b0
      · simp only [hb, if_pos rfl]
        exact alInsert_keys_nodup _ _ (h b0)
      · simp only [if_neg hb]
        exact h b'

theorem insert_ngrams_nodup (idx : TextFieldIndex)
    (san : List Char → List Char) (raw : List Char) (value key : Nat)
    (h : ∀ b, ((idx.ngrams b).map Prod.fst).Nodup) :
    ∀ b, (((idx.insert san raw value key).ngrams b).map Prod.fst).Nodup :=
  ngramsUpdate_nodup key value (bigrams (san raw)) idx.ngrams h

theorem foldl_insert_ngrams_lookup (san : List Char → List Char)
    (k : Nat) (b : Char × Char) :
    ∀ (seq : List Entry) (idx : TextFieldIndex),
      alLookup k
        ((seq.foldl (fun idx e => idx.insert san e.raw e.spur e.key)
          idx).ngrams b)
      = match lastMatch san k b seq with
        | some v => some v
        | none => alLookup k (idx.ngrams b) := by
  intro seq
  induction seq with
  | nil => intro idx; rfl
  | cons e rest ih =>
      intro idx
      rw [List.foldl_cons, ih, lastMatch]
      cases h : lastMatch san k b rest with
      | some v => rfl
      | none =>
          rw [insert_ngrams_lookup]
          by_cases hc : k = e.key ∧ b ∈ bigrams (san e.raw)
          · simp [hc]
          · simp [hc]

/-- Posting-map content of a replayed index: the bucket of `b` maps `k`
to the symbol of the last inserted value for `k` containing `b`. -/
theorem buildIndex_ngrams_lookup (san : List Char → List Char)
    (seq : List Entry) (k : Nat) (b : Char × Char) :
    alLookup k ((buildIndex san seq).ngrams b) = lastMatch san k b seq := by
  rw [buildIndex, foldl_insert_ngrams_lookup]
  cases h : lastMatch san k b seq with
  | some v => rfl
  | none => rfl

theorem buildIndex_ngrams_nodup (san : List Char → List Char)
    (seq : List Entry) :
    ∀ b, (((buildIndex san seq).ngrams b).map Prod.fst).Nodup := by
  rw [buildIndex]
  have h : ∀ (idx : TextFieldIndex),
      (∀ b, ((idx.ngrams b).map Prod.fst).Nodup) →
      ∀ b, (((seq.foldl (fun idx e => idx.insert san e.raw e.spur e.key)
        idx).ngrams b).map Prod.fst).Nodup := by
    induction seq with
    | nil => intro idx h; exact h
    | cons e rest ih =>
        intro idx h
        rw [List.foldl_cons]
        exact ih _ (insert_ngrams_nodup _ _ _ _ _ h)
  apply h
  intro b
  simp [TextFieldIndex.default]

theorem lastMatch_eq_some {san : List Char → List Char} {k v : Nat}
    {b : Char × Char} :
    ∀ {seq : List Entry}, lastMatch san k b seq = some v →
      ∃ e ∈ seq, e.key = k ∧ e.spur = v ∧ b ∈ bigrams (san e.raw) := by
  intro seq
  induction seq with
  | nil => intro h; simp [lastMatch] at h
  | cons e rest ih =>
      intro h
      rw [lastMatch] at h
      cases h2 : lastMatch san k b rest with
      | some w =>
          rw [h2] at h
          simp only [Option.some.injEq] at h
          subst h
          obtain ⟨e', he', hk, hs, hb⟩ := ih h2
          exact ⟨e', List.mem_cons_of_mem _ he', hk, hs, hb⟩
      | none =>
          rw [h2] at h
          simp only at h
          by_cases hc : k = e.key ∧ b ∈ bigrams (san e.raw)
          · rw [if_pos hc] at h
            simp only [Option.some.injEq] at h
            exact ⟨e, List.mem_cons_self _ _, hc.1.symm, h.symm ▸ rfl, hc.2⟩
          · rw [if_neg hc] at h
            exact absurd h (by simp)

theorem lastMatch_of_nodup {san : List Char → List Char} {k : Nat}
    {b : Char × Char} {e : Entry} :
    ∀ {seq : List Entry}, (seq.map Entry.key).Nodup → e ∈ seq →
      e.key = k → b ∈ bigrams (san e.raw) →
      lastMatch san k b seq = some e.spur := by
  intro seq
  induction seq with
  | nil => intro _ h; simp at h
  | cons e0 rest ih =>
      intro hnd hmem hk hb
      rw [List.map_cons, List.nodup_cons] at hnd
      rw [lastMatch]
      rcases List.mem_cons.mp hmem with heq | hmem'
      · subst heq
        have hnone : lastMatch san k b rest = none := by
          cases h2 : lastMatch san k b rest with
          | none => rfl
          | some w =>
              obtain ⟨e', he', hk', _, _⟩ := lastMatch_eq_some h2
              exfalso
              apply hnd.1
              rw [hk, ← hk']
              exact List.mem_map.mpr ⟨e', he', rfl⟩
        rw [hnone]
        simp [hk.symm, hb]
      · rw [ih hnd.2 hmem' hk hb]


theorem foldl_insert_exact_mem (san : List Char → List Char) (k s : Nat) :
    ∀ (seq : List Entry) (idx : TextFieldIndex),
      (k ∈ (seq.foldl (fun idx e => idx.insert san e.raw e.spur e.key)
          idx).exact s ↔
        (∃ e ∈ seq, e.spur = s ∧ e.key = k) ∨ k ∈ idx.exact s) := by
  intro seq
  induction seq with
  | nil => intro idx; simp
  | cons e rest ih =>
      intro idx
      rw [List.foldl_cons, ih, insert_exact]
      constructor
      · rintro (⟨e', he', hs, hk⟩ | (⟨hs, hk⟩ | hmem))
        · exact Or.inl ⟨e', List.mem_cons_of_mem _ he', hs, hk⟩
        · exact Or.inl ⟨e, List.mem_cons_self _ _, hs.symm, hk.symm⟩
        · exact Or.inr hmem
      · rintro (⟨e', he', hs, hk⟩ | hmem)
        · rcases List.mem_cons.mp he' with heq | he''
          · subst heq
            exact Or.inr (Or.inl ⟨hs.symm, hk.symm⟩)
          · exact Or.inl ⟨e', he'', hs, hk⟩
        · exact Or.inr (Or.inr hmem)

/-- Exact-map content of a replayed index: `k ∈ exact[s]` iff some insert
used symbol `s` and key `k`. -/
theorem buildIndex_exact_mem (san : List Char → List Char)
    (seq : List Entry) (k s : Nat) :
    k ∈ (buildIndex san seq).exact s ↔
      ∃ e ∈ seq, e.spur = s ∧ e.key = k := by
  rw [buildIndex, foldl_insert_exact_mem]
  simp [TextFieldIndex.default]

/-! ## `find_like` membership -/

/-- `find_like` with its lets unfolded. -/
theorem find_like_eq (idx : TextFieldIndex) (san : List Char → List Char)
    (strings : Nat → List Char) (value : List Char) :
    idx.find_like san strings value =
      if ((bigrams (san value)).map (fun s => idx.ngrams s)).isEmpty then ∅
      else
        match List.insertionSort (fun h h' => h.length ≤ h'.length)
          ((bigrams (san value)).map (fun s => idx.ngrams s)) with
        | [] => ∅
        | c0 :: rest =>
            (((c0.filter (fun (p : Nat × Nat) =>
                rest.all (fun c => (alLookup p.1 c).isSome))).filter
              (fun (p : Nat × Nat) =>
                decide (san value <:+: san (strings p.2)))).map
              Prod.fst).toFinset := rfl

/-- Elimination form of `find_like` membership: a returned key was found
in the bucket of some query bigram, mapped to a symbol whose resolved,
sanitized string contains the sanitized query. -/
theorem find_like_mem_elim {idx : TextFieldIndex}
    {san : List Char → List Char} {strings : Nat → List Char}
    {q : List Char} {k : Nat}
    (hnodup : ∀ b, ((idx.ngrams b).map Prod.fst).Nodup)
    (hk : k ∈ idx.find_like san strings q) :
    ∃ b ∈ bigrams (san q), ∃ sym, alLookup k (idx.ngrams b) = some sym ∧
      san q <:+: san (strings sym) := by
  rw [find_like_eq] at hk
  by_cases hemp : ((bigrams (san q)).map (fun s => idx.ngrams s)).isEmpty
  · rw [if_pos hemp] at hk
    exact absurd hk (by simp)
  · rw [if_neg hemp] at hk
    cases hsort : List.insertionSort (fun h h' => h.length ≤ h'.length)
        ((bigrams (san q)).map (fun s => idx.ngrams s)) with
    | nil =>
        exfalso
        have hperm := List.perm_insertionSort
          (fun (h h' : List (Nat × Nat)) => h.length ≤ h'.length)
          ((bigrams (san q)).map (fun s => idx.ngrams s))
        rw [hsort] at hperm
        exact hemp (by rw [hperm.symm.eq_nil]; rfl)
    | cons c0 rest =>
        rw [hsort] at hk
        rw [List.mem_toFinset] at hk
        obtain ⟨p, hp, hpk⟩ := List.mem_map.mp hk
        obtain ⟨hpbroad, hnarrow⟩ := List.mem_filter.mp hp
        obtain ⟨hpc0, _⟩ := List.mem_filter.mp hpbroad
        have hc0 : c0 ∈ (bigrams (san q)).map (fun s => idx.ngrams s) := by
          have : c0 ∈ List.insertionSort
              (fun (h h' : List (Nat × Nat)) => h.length ≤ h'.length)
              ((bigrams (san q)).map (fun s => idx.ngrams s)) := by
            rw [hsort]; exact List.mem_cons_self _ _
          exact (List.mem_insertionSort _).mp this
        obtain ⟨b0, hb0, hc0eq⟩ := List.mem_map.mp hc0
        refine ⟨b0, hb0, p.2, ?_, ?_⟩
        · rw [hc0eq]
          have : p = (k, p.2) := by
            rw [← hpk]
          rw [this] at hpc0
          exact mem_alLookup_of_nodup (hc0eq ▸ hnodup b0) hpc0
        · exact of_decide_eq_true hnarrow

/-- Introduction form of `find_like` membership: a key present — with one
common symbol — in the bucket of every query bigram, whose resolved,
sanitized string contains the sanitized query, is returned. -/
theorem find_like_mem_intro {idx : TextFieldIndex}
    {san : List Char → List Char} {strings : Nat → List Char}
    {q : List Char} {k sym : Nat}
    (hne : bigrams (san q) ≠ [])
    (hall : ∀ b ∈ bigrams (san q), alLookup k (idx.ngrams b) = some sym)
    (hsub : san q <:+: san (strings sym)) :
    k ∈ idx.find_like san strings q := by
  rw [find_like_eq]
  have hemp : ((bigrams (san q)).map (fun s => idx.ngrams s)).isEmpty
      = false := by
    simp [List.isEmpty_iff, hne]
  rw [hemp]
  simp only [Bool.false_eq_true, if_false]
  cases hsort : List.insertionSort (fun h h' => h.length ≤ h'.length)
      ((bigrams (san q)).map (fun s => idx.ngrams s)) with
  | nil =>
      exfalso
      have hperm := List.perm_insertionSort
        (fun (h h' : List (Nat × Nat)) => h.length ≤ h'.length)
        ((bigrams (san q)).map (fun s => idx.ngrams s))
      rw [hsort] at hperm
      have := hperm.symm.eq_nil
      rw [List.map_eq_nil_iff] at this
      exact hne this
  | cons c0 rest =>
      have hc0 : c0 ∈ (bigrams (san q)).map (fun s => idx.ngrams s) := by
        have : c0 ∈ List.insertionSort
            (fun (h h' : List (Nat × Nat)) => h.length ≤ h'.length)
            ((bigrams (san q)).map (fun s => idx.ngrams s)) := by
          rw [hsort]; exact List.mem_cons_self _ _
        exact (List.mem_insertionSort _).mp this
      obtain ⟨b0, hb0, hc0eq⟩ := List.mem_map.mp hc0
      have hmem : (k, sym) ∈ c0 := by
        rw [← hc0eq]
        exact alLookup_eq_some_mem (hall b0 hb0)
      rw [List.mem_toFinset]
      apply List.mem_map.mpr
      refine ⟨(k, sym), ?_, rfl⟩
      apply List.mem_filter.mpr
      refine ⟨List.mem_filter.mpr ⟨hmem, ?_⟩, ?_⟩
      · rw [List.all_eq_true]
        intro c hc
        have hcs : c ∈ (bigrams (san q)).map (fun s => idx.ngrams s) := by
          have : c ∈ List.insertionSort
              (fun (h h' : List (Nat × Nat)) => h.length ≤ h'.length)
              ((bigrams (san q)).map (fun s => idx.ngrams s)) := by
            rw [hsort]; exact List.mem_cons_of_mem _ hc
          exact (List.mem_insertionSort _).mp this
        obtain ⟨b, hb, hceq⟩ := List.mem_map.mp hcs
        rw [← hceq, hall b hb]
        rfl
      · exact decide_eq_true hsub


/-! ## Builder lemmas -/

theorem insertText_number_fields (b : Builder) (san : List Char → List Char)
    (f : TextField) (raw : List Char) (spur key : Nat) :
    (b.insertText san f raw spur key).number_fields = b.number_fields := rfl

theorem foldl_insertText_number_fields (san : List Char → List Char)
    (fld : TextField) (key : Nat) (l : List (List Char × Nat)) :
    ∀ b : Builder,
      (l.foldl (fun b p => b.insertText san fld p.1 p.2 key) b).number_fields
        = b.number_fields := by
  induction l with
  | nil => intro b; rfl
  | cons p rest ih =>
      intro b
      rw [List.foldl_cons, ih, insertText_number_fields]

theorem add_song_number_fields (b : Builder) (san : List Char → List Char)
    (sc : ScannerSong) (st : StorageSong) :
    (b.add_song san sc st).number_fields = b.number_fields := by
  obtain ⟨vp, tt, al, ar, aa, co, ge, la, ly⟩ := sc
  obtain ⟨vp', tt', al', ar', aa', co', ge', la', ly'⟩ := st
  simp only [Builder.add_song]
  cases al <;> cases al' <;> cases tt <;> cases tt' <;>
    simp [foldl_insertText_number_fields, insertText_number_fields]

theorem insertText_text_fields_ne (b : Builder)
    (san : List Char → List Char) (f f' : TextField) (raw : List Char)
    (spur key : Nat) (h : f' ≠ f) :
    (b.insertText san f raw spur key).text_fields f' = b.text_fields f' := by
  simp [Builder.insertText, h]

theorem insertText_text_fields_self (b : Builder)
    (san : List Char → List Char) (f : TextField) (raw : List Char)
    (spur key : Nat) :
    (b.insertText san f raw spur key).text_fields f =
      some (((b.text_fields f).getD TextFieldIndex.default).insert
        san raw spur key) := by
  simp [Builder.insertText]

/-! ## Fuzzy text union membership -/

theorem mem_foldl_textUnion (s : Search) (san : List Char → List Char)
    (strings : Nat → List Char) (q : List Char) (k : Nat) :
    ∀ (L : List TextField) (acc : Finset Nat),
      (k ∈ L.foldl (fun songs f => match s.text_fields f with
          | none => songs
          | some idx => songs ∪ idx.find_like san strings q) acc ↔
        (∃ f ∈ L, ∃ idx, s.text_fields f = some idx ∧
          k ∈ idx.find_like san strings q) ∨ k ∈ acc) := by
  intro L
  induction L with
  | nil => intro acc; simp
  | cons f L ih =>
      intro acc
      rw [List.foldl_cons]
      cases h : s.text_fields f with
      | none =>
          rw [ih]
          constructor
          · rintro (⟨f', hf', hidx⟩ | hacc)
            · exact Or.inl ⟨f', List.mem_cons_of_mem _ hf', hidx⟩
            · exact Or.inr hacc
          · rintro (⟨f', hf', idx, hidx, hk⟩ | hacc)
            · rcases List.mem_cons.mp hf' with heq | hf''
              · subst heq
                rw [h] at hidx
                exact absurd hidx (by simp)
              · exact Or.inl ⟨f', hf'', idx, hidx, hk⟩
            · exact Or.inr hacc
      | some idx =>
          rw [ih]
          constructor
          · rintro (⟨f', hf', hidx⟩ | hacc)
            · exact Or.inl ⟨f', List.mem_cons_of_mem _ hf', hidx⟩
            · rcases Finset.mem_union.mp hacc with hacc | hk
              · exact Or.inr hacc
              · exact Or.inl ⟨f, List.mem_cons_self _ _, idx, h, hk⟩
          · rintro (⟨f', hf', idx', hidx, hk⟩ | hacc)
            · rcases List.mem_cons.mp hf' with heq | hf''
              · subst heq
                rw [h] at hidx
                rw [Option.some.injEq] at hidx
                subst hidx
                exact Or.inr (Finset.mem_union.mpr (Or.inr hk))
              · exact Or.inl ⟨f', hf'', idx', hidx, hk⟩
            · exact Or.inr (Finset.mem_union.mpr (Or.inl hacc))

theorem TextField.mem_all (f : TextField) : f ∈ TextField.all := by
  cases f <;> simp [TextField.all]

theorem mem_fuzzyTextUnion {s : Search} {san : List Char → List Char}
    {strings : Nat → List Char} {q : List Char} {k : Nat} :
    k ∈ s.fuzzyTextUnion san strings q ↔
      ∃ f idx, s.text_fields f = some idx ∧
        k ∈ idx.find_like san strings q := by
  rw [Search.fuzzyTextUnion, mem_foldl_textUnion]
  constructor
  · rintro (⟨f, _, idx, hidx, hk⟩ | hacc)
    · exact ⟨f, idx, hidx, hk⟩
    · exact absurd hacc (by simp)
  · rintro ⟨f, idx, hidx, hk⟩
    exact Or.inl ⟨f, TextField.mem_all f, idx, hidx, hk⟩


/-! ## Claim theorems -/

/-- C1 (counterexample): on an index whose `Year` field holds
`values[1] = {3}` and with no text fields, the code evaluates
`Fuzzy(Text "1")` to `∅` (never consulting number fields), while the
claim's stated result — text union plus `find_equal(1)` across number
fields — is `{3}`. -/
theorem eval_fuzzy_text_counterexample :
    Search.eval searchC1 sanId (fun _ => []) (fun _ => none)
        (.fuzzy (.text ['1'])) = some ∅ ∧
    Search.fuzzyTextClaimC1 searchC1 sanId (fun _ => []) ['1'] 1 = {3} ∧
    Search.eval searchC1 sanId (fun _ => []) (fun _ => none)
        (.fuzzy (.text ['1'])) ≠
      some (Search.fuzzyTextClaimC1 searchC1 sanId (fun _ => []) ['1'] 1) := by
  refine ⟨by decide, by decide, by decide⟩

/-- C1 (amended): evaluating `Fuzzy(Text s)` returns exactly the union of
`find_like(s)` over all present text field indexes; the number fields are
never consulted for a text literal (integer handling lives in the
`Fuzzy(Number)` branch). -/
theorem eval_fuzzy_text_is_text_union (s : Search)
    (san : List Char → List Char) (strings : Nat → List Char)
    (canon : List Char → Option Nat) (q : List Char) :
    ∃ S, s.eval san strings canon (.fuzzy (.text q)) = some S ∧
      ∀ k, k ∈ S ↔ ∃ f idx, s.text_fields f = some idx ∧
        k ∈ idx.find_like san strings q := by
  refine ⟨s.fuzzyTextUnion san strings q, rfl, ?_⟩
  intro k
  exact mem_fuzzyTextUnion

/-- C2 (counterexample): with `values[5] = {7}` in the `Year` index, the
claim says `NumberCmp(Year, Eq, 5)` returns the equality bucket `{7}`
and `find_equal(5)` returns `values[5]`; but both are `todo!()` in the
source and panic (`none`), returning no set at all. -/
theorem eval_number_eq_counterexample :
    numIdxC2.find_equal_specModel 5 = {7} ∧
    Search.eval_number_operator searchC2 .year .eq 5 = none ∧
    Search.eval searchC2 sanId (fun _ => []) (fun _ => none)
        (.numberCmp .year .eq 5) = none ∧
    numIdxC2.find_equal 5 = none ∧
    Search.eval_number_operator searchC2 .year .eq 5 ≠
      some (numIdxC2.find_equal_specModel 5) := by
  refine ⟨by decide, rfl, rfl, rfl, by decide⟩

/-- C2 (amended): `eval_number_operator` is unimplemented (`todo!()`) and
panics for every field, operator — including `Eq` — and value, as does
`NumberFieldIndex::find_equal`; no set is ever returned. -/
theorem eval_number_operator_unimplemented (s : Search)
    (san : List Char → List Char) (strings : Nat → List Char)
    (canon : List Char → Option Nat) (f : NumberField) (op : NumberOp)
    (n : Int) (idx : NumberFieldIndex) (m : Int) :
    s.eval san strings canon (.numberCmp f op n) = none ∧
    s.eval_number_operator f op n = none ∧
    idx.find_equal m = none :=
  ⟨rfl, rfl, rfl⟩

/-- C3 (counterexample): value `"a"` (symbol 1, song 7) is indexed; with
the canonical map sending `"a"` to symbol 1, `find_exact("a") = {7}` but
`find_like("a") = ∅` (no bigram window), so exact ⊄ like. -/
theorem find_exact_subset_counterexample :
    ¬ (idxC3.find_exact sanId (fun s => if s = ['a'] then some 1 else none)
        ['a'] ⊆
       idxC3.find_like sanId (fun _ => ['a']) ['a']) := by
  decide

/-- C3 (amended): for an index replayed from a sequence of inserts in
which every song key is inserted at most once, if the sanitized value has
at least 2 characters, the reader resolves each inserted symbol to its
raw value, and the canonical map sends `sanitize(v)` to a symbol whose
resolved string sanitizes to `sanitize(v)`, then
`find_exact(v) ⊆ find_like(v)`. -/
theorem find_exact_subset_find_like (san : List Char → List Char)
    (strings : Nat → List Char) (canon : List Char → Option Nat)
    (seq : List Entry) (v : List Char) (sym : Nat)
    (hlen : 2 ≤ (san v).length)
    (hkeys : (seq.map Entry.key).Nodup)
    (hres : ∀ e ∈ seq, strings e.spur = e.raw)
    (hcanon : canon (san v) = some sym)
    (hcanonRes : san (strings sym) = san v) :
    (buildIndex san seq).find_exact san canon v ⊆
      (buildIndex san seq).find_like san strings v := by
  intro k hk
  simp only [TextFieldIndex.find_exact, hcanon] at hk
  obtain ⟨e, he, hes, hek⟩ := (buildIndex_exact_mem san seq k sym).mp hk
  have hraw : san e.raw = san v := by
    rw [← hres e he, hes, hcanonRes]
  have hall : ∀ b ∈ bigrams (san v),
      alLookup k ((buildIndex san seq).ngrams b) = some sym := by
    intro b hb
    rw [buildIndex_ngrams_lookup]
    have hbe : b ∈ bigrams (san e.raw) := by rw [hraw]; exact hb
    have h2 := lastMatch_of_nodup hkeys he hek hbe
    rw [h2, hes]
  have hsub : san v <:+: san (strings sym) := by
    rw [hcanonRes]
  exact @find_like_mem_intro _ san strings v k sym
    (bigrams_ne_nil_of_two_le hlen) hall hsub

/-- C3 witness: a concrete single-insert index where the inclusion holds. -/
theorem find_exact_subset_find_like_witness :
    (buildIndex sanId seqC3w).find_exact sanId
        (fun s => if s = ['a', 'b'] then some 1 else none) ['a', 'b'] ⊆
      (buildIndex sanId seqC3w).find_like sanId (fun _ => ['a', 'b'])
        ['a', 'b'] :=
  find_exact_subset_find_like sanId (fun _ => ['a', 'b'])
    (fun s => if s = ['a', 'b'] then some 1 else none) seqC3w ['a', 'b'] 1
    (by decide) (by decide) (by decide) (by decide) (by decide)

/-- C4: if no value indexed for song `k` sanitizes to a string containing
the sanitized query, `find_like` does not return `k` — the narrow phase
rejects every bigram-intersection candidate whose resolved, sanitized
value does not contain the query. -/
theorem find_like_no_false_positives (san : List Char → List Char)
    (strings : Nat → List Char) (seq : List Entry) (q : List Char)
    (k : Nat)
    (hres : ∀ e ∈ seq, strings e.spur = e.raw)
    (hno : ∀ e ∈ seq, e.key = k → ¬ (san q <:+: san e.raw)) :
    k ∉ (buildIndex san seq).find_like san strings q := by
  intro hk
  obtain ⟨b, hb, sym, hlk, hsub⟩ :=
    find_like_mem_elim (buildIndex_ngrams_nodup san seq) hk
  rw [buildIndex_ngrams_lookup] at hlk
  obtain ⟨e, he, hek, hes, heb⟩ := lastMatch_eq_some hlk
  apply hno e he hek
  rw [← hres e he, hes]
  exact hsub

/-- C4 witness: `"love"` is not found in the index of
`"lorry bovine vehicle"`, though all its bigrams occur there. -/
theorem find_like_no_false_positives_witness :
    9 ∉ (buildIndex sanId seqC4).find_like sanId stringsC4
      ['l', 'o', 'v', 'e'] :=
  find_like_no_false_positives sanId stringsC4 seqC4
    ['l', 'o', 'v', 'e'] 9 (by decide) (by decide)

/-- C5 (counterexample): after inserting value `"ab"` (symbol 1) and then
`"abc"` (symbol 2) for song 7, the bucket of bigram `ab` maps 7 to
symbol 2 — not to symbol 1, although `ab ∈ bigrams("ab")` and `"ab"` was
indexed for 7. -/
theorem ngram_overwrite_counterexample :
    ('a', 'b') ∈ bigrams (sanId ['a', 'b']) ∧
    alLookup 7 (idxC5.ngrams ('a', 'b')) = some 2 ∧
    alLookup 7 (idxC5.ngrams ('a', 'b')) ≠ some 1 := by
  refine ⟨by decide, by decide, by decide⟩

/-- C5 (amended): after replaying any sequence of inserts, the ngram
bucket of `b` maps `k` to the symbol of the *last* value inserted for
song `k` whose sanitized form contains `b` (and to nothing when there is
no such value). -/
theorem ngram_bucket_is_last_inserted (san : List Char → List Char)
    (seq : List Entry) (k : Nat) (b : Char × Char) :
    alLookup k ((buildIndex san seq).ngrams b) = lastMatch san k b seq :=
  buildIndex_ngrams_lookup san seq k b

/-- C6: conjunction and disjunction of query expressions evaluate
commutatively. -/
theorem combined_commutes (s : Search) (san : List Char → List Char)
    (strings : Nat → List Char) (canon : List Char → Option Nat)
    (a b : Expr) :
    (s.eval san strings canon (.combined a .and b)
      = s.eval san strings canon (.combined b .and a)) ∧
    (s.eval san strings canon (.combined a .or b)
      = s.eval san strings canon (.combined b .or a)) := by
  constructor <;>
  · cases h1 : s.eval san strings canon a <;>
      cases h2 : s.eval san strings canon b <;>
      simp [Search.eval, h1, h2, Finset.inter_comm, Finset.union_comm]

/-- C7: a query whose sanitized form has fewer than 2 characters yields
no bigram window, and `find_like` returns the empty set. -/
theorem find_like_short_query_empty (idx : TextFieldIndex)
    (san : List Char → List Char) (strings : Nat → List Char)
    (q : List Char) (h : (san q).length < 2) :
    idx.find_like san strings q = ∅ := by
  rw [find_like_eq, bigrams_eq_nil_of_length_lt_two h]
  rfl

/-- C7 witness: the one-character query `"a"` on a nonempty index. -/
theorem find_like_short_query_empty_witness :
    (sanId ['a']).length < 2 ∧
    idxW7.find_like sanId (fun _ => ['a', 'b']) ['a'] = ∅ :=
  ⟨by decide, find_like_short_query_empty idxW7 sanId
    (fun _ => ['a', 'b']) ['a'] (by decide)⟩

/-- C8: a `TextCmp` on a field absent from the text-field map evaluates
to the empty set (for either operator), not to a failure. -/
theorem eval_textCmp_absent_field (s : Search)
    (san : List Char → List Char) (strings : Nat → List Char)
    (canon : List Char → Option Nat) (field : TextField) (op : TextOp)
    (v : List Char) (h : s.text_fields field = none) :
    s.eval san strings canon (.textCmp field op v) = some ∅ := by
  simp [Search.eval, Search.eval_text_operator, h]

/-- C8 witness: the default (empty) search index. -/
theorem eval_textCmp_absent_field_witness :
    Search.default.eval sanId (fun _ => []) (fun _ => none)
      (.textCmp .album .eq ['a']) = some ∅ :=
  eval_textCmp_absent_field Search.default sanId (fun _ => [])
    (fun _ => none) .album .eq ['a'] rfl

/-- C9: `NumberFieldIndex::insert` is a no-op and `Builder::add_song`
never touches the number fields, so after `build()` the number-field map
is empty no matter which songs were added. -/
theorem builder_never_populates_number_fields
    (san : List Char → List Char)
    (songs : List (ScannerSong × StorageSong)) :
    (∀ (idx : NumberFieldIndex) (raw : List Char) (v k : Nat),
      idx.insert raw v k = idx) ∧
    ∀ f, ((songs.foldl (fun b p => b.add_song san p.1 p.2)
        Builder.default).build).number_fields f = none := by
  refine ⟨fun _ _ _ _ => rfl, ?_⟩
  intro f
  have h : ∀ b : Builder,
      (songs.foldl (fun b p => b.add_song san p.1 p.2) b).number_fields
        = b.number_fields := by
    induction songs with
    | nil => intro b; rfl
    | cons p rest ih =>
        intro b
        rw [List.foldl_cons, ih, add_song_number_fields]
  show (songs.foldl (fun b p => b.add_song san p.1 p.2)
    Builder.default).number_fields f = none
  rw [h]
  rfl

/-- C10: `add_song` always inserts the song's (lossy) virtual-path string
into the `Path` text field index under the song's key — even when every
optional metadata field is absent — so every added song appears in at
least one text field index. -/
theorem add_song_inserts_path (b : Builder) (san : List Char → List Char)
    (sc : ScannerSong) (st : StorageSong) :
    ∃ idx, (b.add_song san sc st).text_fields .path = some idx ∧
      st.virtual_path ∈ idx.exact st.virtual_path := by
  obtain ⟨vp, tt, al, ar, aa, co, ge, la, ly⟩ := sc
  obtain ⟨vp', tt', al', ar', aa', co', ge', la', ly'⟩ := st
  simp only [Builder.add_song]
  cases tt <;> cases tt' <;>
    first
    | exact ⟨_, insertText_text_fields_self _ _ _ _ _ _,
        (insert_exact _ _ _ _ _ _ _).mpr (Or.inl ⟨rfl, rfl⟩)⟩
    | (rw [insertText_text_fields_ne _ _ _ _ _ _ _ (by decide)]
       exact ⟨_, insertText_text_fields_self _ _ _ _ _ _,
         (insert_exact _ _ _ _ _ _ _).mpr (Or.inl ⟨rfl, rfl⟩)⟩)

end Polaris
